import Mathlib

/-!
# Verification of the gRPC nil-value linter core

This file gives a shallow embedding, in Lean 4, of the core of the
`go_ssa_no_nil_linter` repository: the nil-status lattice and its join
(`nil_flow.go`), the interprocedural call summary (`callNilStatus`), the
cycle-broken SSA value analysis (`ValueNilStatus`), the proto field
classifier (`proto_field.go` / `handler_analysis.go`), the gRPC handler
recognizer (`grpc_detector.go`), and the handler driver (`analyzeHandler`).

Each Go function is translated to an executable Lean definition keeping the
source's structure and names; machine maps become explicit function-valued
caches, and the recursion of `ValueNilStatus` is expressed with explicit
fuel (the fuel `vals.length` is proved sufficient, which is the code's
termination argument: the visited cache is seeded before recursing).

Theorems named `cN_...` settle the corresponding claims about the code.
-/

namespace GrpcNilLinter

/-! ## Nil-status lattice (model.go, nil_flow.go) -/

/-- `NilStatus` from `model.go`: Unknown, NotNil, MaybeNil, DefinitelyNil. -/
inductive NilStatus where
  | unknown
  | notNil
  | maybeNil
  | definitelyNil
deriving DecidableEq, Repr, Fintype

open NilStatus

/-- `joinNilStatus` from `nil_flow.go`: merges two `NilStatus` values
conservatively, exactly as the Go `switch` does. -/
def joinNilStatus (a b : NilStatus) : NilStatus :=
  if a = unknown ∨ b = unknown then
    if a = definitelyNil ∨ b = definitelyNil then maybeNil else unknown
  else if a = definitelyNil ∧ b = definitelyNil then definitelyNil
  else if a = notNil ∧ b = notNil then notNil
  else maybeNil

/-- Modelled from the spec: the join table of §4.3 exactly as written there
(rows NotNull, MaybeNull, DefNull, Unknown).  The spec declares the table
commutative and prints only the upper triangle; the mirror cells below the
diagonal are filled in by that declared commutativity. -/
def specJoinTable (a b : NilStatus) : NilStatus :=
  match a, b with
  | notNil, notNil => notNil
  | notNil, maybeNil => maybeNil
  | notNil, definitelyNil => maybeNil
  | notNil, unknown => unknown
  | maybeNil, notNil => maybeNil
  | maybeNil, maybeNil => maybeNil
  | maybeNil, definitelyNil => maybeNil
  | maybeNil, unknown => maybeNil
  | definitelyNil, notNil => maybeNil
  | definitelyNil, maybeNil => maybeNil
  | definitelyNil, definitelyNil => definitelyNil
  | definitelyNil, unknown => maybeNil
  | unknown, notNil => unknown
  | unknown, maybeNil => maybeNil
  | unknown, definitelyNil => maybeNil
  | unknown, unknown => unknown

/-- The spec's table with its single deviation from the code repaired:
joining `MaybeNull` with `Unknown` yields `Unknown` in the code (the
`a == Unknown || b == Unknown` branch fires and neither side is
`DefinitelyNil`), not `MaybeNull` as the spec table prints. -/
def specJoinTableAmended (a b : NilStatus) : NilStatus :=
  match a, b with
  | maybeNil, unknown => unknown
  | unknown, maybeNil => unknown
  | _, _ => specJoinTable a b

/-- C2, counterexample: the code's `joinNilStatus` disagrees with the spec's
join table at (MaybeNull, Unknown): the code returns `Unknown` where the
table (and the claim) say `MaybeNull`.  The (Unknown, DefinitelyNull) entry
the claim also singles out does agree. -/
theorem c2_join_table_counterexample :
    joinNilStatus maybeNil unknown = unknown ∧
    specJoinTable maybeNil unknown = maybeNil ∧
    joinNilStatus maybeNil unknown ≠ specJoinTable maybeNil unknown ∧
    joinNilStatus unknown definitelyNil = maybeNil := by
  decide

/-- C2, amended: `joinNilStatus` agrees with the spec's join table on every
pair except (MaybeNull, Unknown) and its mirror image, where it returns
`Unknown`; in particular joining `Unknown` with `DefinitelyNull` yields
`MaybeNull` in both directions. -/
theorem c2_join_table_amended :
    (∀ a b : NilStatus, joinNilStatus a b = specJoinTableAmended a b) ∧
    joinNilStatus unknown definitelyNil = maybeNil ∧
    joinNilStatus definitelyNil unknown = maybeNil := by
  decide

/-- C9: `joinNilStatus` is commutative and idempotent on the four lattice
elements. -/
theorem c9_join_comm_idem :
    ∀ a b : NilStatus, joinNilStatus a b = joinNilStatus b a ∧
      joinNilStatus a a = a := by
  decide

/-! ## Go types and the proto field classifier (proto_field.go)

`go/types` values are embedded as a small inductive: a named type carries
its package path (`none` for the universe scope, as for `error`), its name,
whether the method set of its pointer form has a nullary `ProtoMessage`
method (`marker`, the result of `implementsProtoMessage`), and its
underlying type.  Struct tags are embedded after `reflect.StructTag`
tokenization: the list of `key:"value"` segments in order. -/

mutual

inductive GoType where
  | named (pkgPath : Option String) (nm : String) (marker : Bool) (under : GoUnder)
  | ptr (elem : GoType)
  | sliceT (elem : GoType)
  | mapT (key value : GoType)
  | basicT (nm : String)

inductive GoUnder where
  | structU (fields : List GoField)
  | otherU

inductive GoField where
  | mk (nm : String) (exported : Bool) (typ : GoType) (tag : List (String × String))

end

namespace GoField

def nm : GoField → String
  | .mk n _ _ _ => n

def exported : GoField → Bool
  | .mk _ e _ _ => e

def typ : GoField → GoType
  | .mk _ _ t _ => t

def tag : GoField → List (String × String)
  | .mk _ _ _ tg => tg

end GoField

/-- Strips one layer of pointer, as the `if ptr, ok := t.(*types.Pointer); ok`
preludes in the Go code do. -/
def stripPtrOnce : GoType → GoType
  | .ptr e => e
  | t => t

/-- `isPointer` from proto_field.go. -/
def isPointerT : GoType → Bool
  | .ptr _ => true
  | _ => false

/-- `isSlice` from proto_field.go. -/
def isSliceT : GoType → Bool
  | .sliceT _ => true
  | _ => false

/-- `isMap` from proto_field.go. -/
def isMapT : GoType → Bool
  | .mapT _ _ => true
  | _ => false

/-- `implementsProtoMessage` from proto_field.go: the pointer form's method
set has a method named `ProtoMessage`; on the embedded named type this is
the `marker` flag, and a non-named type has no such method set. -/
def implementsProtoMessage : GoType → Bool
  | .named _ _ marker _ => marker
  | _ => false

/-- `isProtoMessage` from proto_field.go: strip one pointer, require a named
type carrying the marker method. -/
def isProtoMessage (t : GoType) : Bool :=
  implementsProtoMessage (stripPtrOnce t)

/-- `elementIsProtoMessage` from proto_field.go. -/
def elementIsProtoMessage : GoType → Bool
  | .sliceT e => isProtoMessage e
  | _ => false

/-- `tagGet`: `reflect.StructTag.Get` on the tokenized tag — the value of
the first segment with the given key, `""` when absent. -/
def tagGet (tag : List (String × String)) (key : String) : String :=
  match tag.find? (fun kv => kv.1 = key) with
  | some kv => kv.2
  | none => ""

/-- `strings.Split` on a one-character separator, over the character list. -/
def splitCharsOn (c : Char) : List Char → List (List Char)
  | [] => [[]]
  | ch :: rest =>
    let r := splitCharsOn c rest
    if ch = c then [] :: r
    else
      match r with
      | [] => [[ch]]
      | g :: gs => (ch :: g) :: gs

/-- `strings.Split(value, ",")`. -/
def splitOnComma (s : String) : List String :=
  (splitCharsOn ',' s.data).map (fun l => String.mk l)

/-- `tagHasFlag` from proto_field.go: split the tag value on commas and look
for an exact segment. -/
def tagHasFlag (tag : List (String × String)) (key part : String) : Bool :=
  let value := tagGet tag key
  if value = "" then false
  else if part = "" then true
  else (splitOnComma value).any (fun segment => segment = part)

/-- `hasOneOfTag` from proto_field.go. -/
def hasOneOfTag (tag : List (String × String)) : Bool :=
  tagHasFlag tag "protobuf" "oneof"

/-- `FieldRisk` from model.go. -/
inductive FieldRisk where
  | safe
  | messagePointer
  | repeatedMessagePointer
  | implicitRequirement
deriving DecidableEq, Repr

/-- `FieldInfo` from model.go (the `MessageTypeName` string is omitted: it
is never read by the analysis). -/
structure FieldInfo where
  name : String
  parent : GoType
  typ : GoType
  tag : List (String × String)
  isPointer : Bool
  isRepeated : Bool
  isMap : Bool
  isScalar : Bool
  isOptional : Bool
  isProtoMsg : Bool
  risk : FieldRisk

/-- `classifyField` from proto_field.go. -/
def classifyField (parent : GoType) (f : GoField) : FieldInfo :=
  let fieldType := f.typ
  let isPtr := isPointerT fieldType
  let isRepeated := isSliceT fieldType
  let isMp := isMapT fieldType
  let isScalar := !isPtr && !isRepeated && !isMp
  let isMsg := isProtoMessage fieldType
  let isOpt := hasOneOfTag f.tag
  let risk :=
    if isRepeated && elementIsProtoMessage fieldType then
      FieldRisk.repeatedMessagePointer
    else if isPtr && isMsg && !isOpt then
      FieldRisk.messagePointer
    else
      FieldRisk.safe
  { name := f.nm, parent := parent, typ := fieldType, tag := f.tag,
    isPointer := isPtr, isRepeated := isRepeated, isMap := isMp,
    isScalar := isScalar, isOptional := isOpt, isProtoMsg := isMsg,
    risk := risk }

/-- `ProtoMessageInfo` from model.go; `fieldByID` is the `FieldByID` map as
the association list of its insertions in order. -/
structure MsgInfo where
  typ : GoType
  fields : List FieldInfo
  risky : List FieldInfo
  fieldByID : List (Nat × FieldInfo)

/-- One iteration of the field loop of `AnalyzeMessage`: skip a non-exported
field; otherwise classify it and record it in `Fields`, `FieldByID`, and, if
its risk is not `Safe`, in `Risky`. -/
def msgInfoStep (parent : GoType) (info : MsgInfo) (p : Nat × GoField) :
    MsgInfo :=
  if p.2.exported then
    let meta := classifyField parent p.2
    { info with
      fields := info.fields ++ [meta],
      fieldByID := info.fieldByID ++ [(p.1, meta)],
      risky := if meta.risk ≠ FieldRisk.safe then info.risky ++ [meta]
               else info.risky }
  else info

/-- The field loop of `AnalyzeMessage`: for each exported field `i` in
declaration order, classify and record it. -/
def buildMsgInfo (parent : GoType) (fs : List GoField) : MsgInfo :=
  fs.enum.foldl (msgInfoStep parent)
    { typ := parent, fields := [], risky := [], fieldByID := [] }

/-- `AnalyzeMessage` from proto_field.go.  The Go receiver's `cache` is pure
memoization of this function (the priming `p.cache[named] = info` can never
be read back: `classifyField` does not call `AnalyzeMessage`), so the cache
is dropped.  `none` is the Go `nil` argument/result. -/
def analyzeMessage (t : GoType) : Option MsgInfo :=
  match t with
  | .named p n m u =>
    match u with
    | .structU fs => some (buildMsgInfo (.named p n m u) fs)
    | .otherU => some { typ := .named p n m u, fields := [], risky := [],
                        fieldByID := [] }
  | _ => none

/-! ## C5: the field-risk priority -/

/-- Modelled from the spec: §4.1 step 4's first-match priority — a slice
whose element type after pointer-stripping is a message type is
`RepeatedMessagePointer`; otherwise a non-optional pointer to a message type
is `MessagePointer`; otherwise `Safe`. -/
def specRiskOf (f : GoField) : FieldRisk :=
  match f.typ with
  | .sliceT e =>
    if implementsProtoMessage (stripPtrOnce e) then .repeatedMessagePointer
    else .safe
  | .ptr e =>
    if implementsProtoMessage e && !hasOneOfTag f.tag then .messagePointer
    else .safe
  | _ => .safe

/-- The second component of an `enumFrom` entry is a list member. -/
theorem snd_mem_of_mem_enumFrom {α : Type} :
    ∀ (l : List α) (n : Nat) (p : Nat × α), p ∈ l.enumFrom n → p.2 ∈ l := by
  intro l
  induction l with
  | nil => intro n p h; simp [List.enumFrom] at h
  | cons x xs ih =>
    intro n p h
    simp only [List.enumFrom, List.mem_cons] at h
    rcases h with h | h
    · simp [h]
    · exact List.mem_cons_of_mem _ (ih (n + 1) p h)

/-- Fold invariant: every field descriptor produced by the `AnalyzeMessage`
loop comes from an exported field. -/
theorem msgInfo_fields_from_exported (parent : GoType) :
    ∀ (l : List (Nat × GoField)) (init : MsgInfo) (meta : FieldInfo),
      meta ∈ ((l.foldl (msgInfoStep parent) init).fields) →
      meta ∈ init.fields ∨
        ∃ p ∈ l, p.2.exported = true ∧ meta = classifyField parent p.2 := by
  intro l
  induction l with
  | nil => intro init meta h; exact Or.inl h
  | cons p rest ih =>
    intro init meta h
    rw [List.foldl_cons] at h
    rcases ih (msgInfoStep parent init p) meta h with h' | ⟨q, hq, hqe, hqc⟩
    · unfold msgInfoStep at h'
      by_cases hexp : p.2.exported
      · simp only [hexp, if_true] at h'
        rcases List.mem_append.mp h' with h'' | h''
        · exact Or.inl h''
        · refine Or.inr ⟨p, List.mem_cons_self .., hexp, ?_⟩
          simpa using h''
      · simp only [hexp, if_false] at h'
        exact Or.inl h'
    · exact Or.inr ⟨q, List.mem_cons_of_mem _ hq, hqe, hqc⟩

/-- C5: for every exported struct field the derived risk follows the spec's
first-match priority (`classifyField` agrees with the spec's decision list
everywhere); in particular a slice of messages is `RepeatedMessagePointer`
even when tagged `oneof`, map fields and `oneof`-tagged message pointers are
`Safe`, and non-exported fields contribute no descriptor at all. -/
theorem c5_classify_priority (parent : GoType) (f : GoField)
    (fs : List GoField) :
    (classifyField parent f).risk = specRiskOf f ∧
    (isMapT f.typ = true → (classifyField parent f).risk = .safe) ∧
    (isPointerT f.typ = true → hasOneOfTag f.tag = true →
      (classifyField parent f).risk = .safe) ∧
    (isSliceT f.typ = true → elementIsProtoMessage f.typ = true →
      (classifyField parent f).risk = .repeatedMessagePointer) ∧
    (∀ meta ∈ (buildMsgInfo parent fs).fields,
      ∃ g ∈ fs, g.exported = true ∧ meta = classifyField parent g) := by
  refine ⟨?_, ?_, ?_, ?_, ?_⟩
  · rcases f with ⟨n, e, t, tg⟩
    cases t <;>
      simp [classifyField, specRiskOf, isPointerT, isSliceT, isMapT,
        elementIsProtoMessage, isProtoMessage, stripPtrOnce, GoField.typ,
        GoField.tag] <;>
      split <;> simp_all
  · intro hm
    rcases f with ⟨n, e, t, tg⟩
    cases t <;> simp_all [classifyField, isPointerT, isSliceT, isMapT,
      elementIsProtoMessage, GoField.typ]
  · intro hp ho
    rcases f with ⟨n, e, t, tg⟩
    cases t <;> simp_all [classifyField, isPointerT, isSliceT, isMapT,
      elementIsProtoMessage, GoField.typ, GoField.tag]
  · intro hs he
    rcases f with ⟨n, e, t, tg⟩
    cases t <;> simp_all [classifyField, isPointerT, isSliceT, isMapT,
      elementIsProtoMessage, GoField.typ]
  · intro meta hmem
    rcases msgInfo_fields_from_exported parent fs.enum _ meta hmem with
      h | ⟨p, hp, hpe, hpc⟩
    · simp at h
    · exact ⟨p.2, snd_mem_of_mem_enumFrom fs 0 p hp, hpe, hpc⟩

/-- C5 witness input: an exported `oneof`-tagged slice-of-messages field. -/
def c5WitnessMsg : GoType :=
  GoType.named (some "pb") "User" true (.structU [])

/-- C5 witness input: the field `Items []*User` tagged `oneof`. -/
def c5WitnessField : GoField :=
  GoField.mk "Items" true (.sliceT (.ptr c5WitnessMsg))
    [("protobuf", "bytes,1,rep,name=items,proto3,oneof")]

/-- C5 witness: the theorem applied at a concrete `oneof`-tagged slice of
message pointers, which is still `RepeatedMessagePointer`. -/
theorem c5_classify_priority_witness :
    (classifyField c5WitnessMsg c5WitnessField).risk
      = FieldRisk.repeatedMessagePointer ∧
    hasOneOfTag c5WitnessField.tag = true :=
  ⟨(c5_classify_priority c5WitnessMsg c5WitnessField []).2.2.2.1
      (by decide) (by decide),
    by decide⟩

/-! ## C7: `AnalyzeMessage` on non-message types -/

/-- A named struct type that does not carry the `ProtoMessage` marker but
has an exported risky-shaped field. -/
def c7NoMarker : GoType :=
  GoType.named (some "pb") "Plain" false
    (.structU [GoField.mk "Profile" true
      (.ptr (GoType.named (some "pb") "UserProfile" true (.structU [])))
      [("protobuf", "bytes,1,opt,name=profile,proto3")]])

/-- C7, counterexample: `AnalyzeMessage` never consults the marker method —
a named struct lacking `ProtoMessage` still yields one field descriptor and
one risky field, not the empty descriptor the claim requires. -/
theorem c7_counterexample :
    implementsProtoMessage c7NoMarker = false ∧
    (analyzeMessage c7NoMarker).map
      (fun i => (i.fields.length, i.risky.length)) = some (1, 1) := by
  constructor
  · rfl
  · rfl

/-- Projection of a message descriptor to the marker-independent data. -/
def msgInfoShape (i : MsgInfo) : List (String × FieldRisk) :=
  i.fields.map (fun fi => (fi.name, fi.risk))

/-- The `AnalyzeMessage` loop's field names and risks do not depend on the
parent type passed to `classifyField`. -/
theorem msgInfoShape_parent_irrelevant (p1 p2 : GoType) :
    ∀ (l : List (Nat × GoField)) (i1 i2 : MsgInfo),
      msgInfoShape i1 = msgInfoShape i2 →
      msgInfoShape (l.foldl (msgInfoStep p1) i1)
        = msgInfoShape (l.foldl (msgInfoStep p2) i2) := by
  intro l
  induction l with
  | nil => intro i1 i2 h; exact h
  | cons q rest ih =>
    intro i1 i2 h
    rw [List.foldl_cons, List.foldl_cons]
    apply ih
    unfold msgInfoStep
    by_cases hexp : q.2.exported
    · simp only [hexp, if_true, msgInfoShape] at h ⊢
      simp [h, classifyField]
    · simpa [hexp] using h

/-- C7, amended: for every named type whose underlying type is not a struct
the descriptor is empty (no fields, no risky fields, no index map), and the
marker method is not consulted: descriptors of marked and unmarked named
types have the same field names and risks. -/
theorem c7_empty_descriptor_amended (p : Option String) (n : String)
    (m : Bool) (u : GoUnder) :
    analyzeMessage (.named p n m .otherU)
      = some { typ := .named p n m .otherU, fields := [], risky := [],
               fieldByID := [] } ∧
    (analyzeMessage (.named p n true u)).map msgInfoShape
      = (analyzeMessage (.named p n false u)).map msgInfoShape := by
  constructor
  · rfl
  · cases u with
    | otherU => rfl
    | structU fs =>
      show some (msgInfoShape (buildMsgInfo _ fs)) =
        some (msgInfoShape (buildMsgInfo _ fs))
      exact congrArg some (msgInfoShape_parent_irrelevant _ _ fs.enum _ _ rfl)

/-! ## gRPC handler recognition (grpc_detector.go) -/

/-- A procedure signature as `DetectHandlerFromFunc` consumes it: optional
receiver type, parameter types, result types, and the method name. -/
structure FuncSig where
  recv : Option GoType
  params : List GoType
  results : List GoType
  fnName : String

/-- `receiverNamedType` from grpc_detector.go: strip one pointer, return the
named type or `nil`. -/
def receiverNamedType (t : GoType) : Option GoType :=
  match stripPtrOnce t with
  | .named p n m u => some (.named p n m u)
  | _ => none

/-- `isContextType` from grpc_detector.go. -/
def isContextType (t : GoType) : Bool :=
  match receiverNamedType t with
  | some (.named (some pkg) nm _ _) => pkg = "context" && nm = "Context"
  | _ => false

/-- `isErrorType` from grpc_detector.go: a named type in the universe scope
(`Pkg() == nil`) named `error`. -/
def isErrorType (t : GoType) : Bool :=
  match receiverNamedType t with
  | some (.named none nm _ _) => nm = "error"
  | some (.named (some _) _ _ _) => false
  | _ => false

/-- The name of a named type (`named.Obj().Name()`), `""` otherwise. -/
def namedName : GoType → String
  | .named _ n _ _ => n
  | _ => ""

/-- `HandlerInfo` from model.go (SSA function reference dropped; the handler
body is carried separately by the driver model). -/
structure HandlerRec where
  receiverType : GoType
  requestType : GoType
  responseType : GoType
  serviceName : String
  methodName : String

/-- `DetectHandlerFromFunc` from grpc_detector.go. -/
def detectHandlerFromFunc (sig : FuncSig) : Option HandlerRec :=
  match sig.recv with
  | none => none
  | some recvT =>
    if sig.params.length < 2 ∨ sig.results.length ≠ 2 then none
    else
      match sig.params[0]?, sig.params[1]?, sig.results[0]?, sig.results[1]? with
      | some ctxT, some reqT, some respT, some errT =>
        if !isContextType ctxT then none
        else if !isErrorType errT then none
        else if !(isProtoMessage reqT && isProtoMessage respT) then none
        else
          match receiverNamedType recvT with
          | none => none
          | some serviceType =>
            some { receiverType := serviceType, requestType := reqT,
                   responseType := respT, serviceName := namedName serviceType,
                   methodName := sig.fnName }
      | _, _, _, _ => none

/-- Modelled from the claim's words (C6): recognized iff it has a receiver,
parameter arity ≥ 2 with the first parameter the `context.Context` named
type and the second a pointer to a message type, and result arity exactly 2
with the first result a pointer to a message type and the second the
predeclared `error` type. -/
def specRecognizes (sig : FuncSig) : Bool :=
  sig.recv.isSome
  && decide (2 ≤ sig.params.length) && decide (sig.results.length = 2)
  && (match sig.params[0]? with
      | some (GoType.named (some pkg) nm _ _) => pkg = "context" && nm = "Context"
      | _ => false)
  && (match sig.params[1]? with
      | some (GoType.ptr e) => implementsProtoMessage e
      | _ => false)
  && (match sig.results[0]? with
      | some (GoType.ptr e) => implementsProtoMessage e
      | _ => false)
  && (match sig.results[1]? with
      | some (GoType.named none nm _ _) => nm = "error"
      | _ => false)

/-- The amended recognition predicate: every shape test tolerates one layer
of pointer indirection, because `isProtoMessage`, `isContextType` and
`isErrorType` all strip one pointer before looking at the named type; and
the receiver must strip to a named type. -/
def specRecognizesAmended (sig : FuncSig) : Bool :=
  (match sig.recv with
   | some r => (receiverNamedType r).isSome
   | none => false)
  && decide (2 ≤ sig.params.length) && decide (sig.results.length = 2)
  && (match sig.params[0]? with
      | some t => isContextType t
      | none => false)
  && (match sig.params[1]? with
      | some t => implementsProtoMessage (stripPtrOnce t)
      | none => false)
  && (match sig.results[0]? with
      | some t => implementsProtoMessage (stripPtrOnce t)
      | none => false)
  && (match sig.results[1]? with
      | some t => isErrorType t
      | none => false)

/-- A message type for the C6 counterexample. -/
def c6Msg (nm : String) : GoType :=
  GoType.named (some "pb") nm true (.structU [])

/-- A handler-shaped signature whose second parameter is a NON-pointer
message type. -/
def c6Sig : FuncSig where
  recv := some (.ptr (GoType.named (some "svc") "Service" false (.structU [])))
  params := [GoType.named (some "context") "Context" false .otherU,
             c6Msg "GetUserRequest"]
  results := [.ptr (c6Msg "GetUserResponse"),
              GoType.named none "error" false .otherU]
  fnName := "GetUser"

/-- C6, counterexample: `DetectHandlerFromFunc` recognizes a procedure whose
second parameter is a non-pointer message type — `isProtoMessage` strips a
pointer only when present, so value message parameters pass — contradicting
the claim's "only if ... the second parameter a pointer to a message type
... in particular a procedure whose second parameter ... is a non-pointer
message type is not recognized". -/
theorem c6_counterexample :
    (detectHandlerFromFunc c6Sig).isSome = true ∧ specRecognizes c6Sig = false := by
  constructor
  · rfl
  · rfl

/-- C6, amended: recognition holds iff the procedure has a receiver that
strips to a named type, parameter arity ≥ 2 with the first parameter
resolving (after stripping one pointer) to `context.Context` and the second
resolving (after stripping one pointer) to a message type, and result arity
exactly 2 with the first result resolving (after stripping one pointer) to a
message type and the second resolving (after stripping one pointer) to the
predeclared `error` type. -/
theorem c6_recognize_amended (sig : FuncSig) :
    (detectHandlerFromFunc sig).isSome = specRecognizesAmended sig := by
  rcases sig with ⟨recv, params, results, nm⟩
  unfold detectHandlerFromFunc specRecognizesAmended
  cases recv with
  | none => simp
  | some recvT =>
    dsimp only
    rcases params with _ | ⟨p0, _ | ⟨p1, prest⟩⟩
    · simp
    · simp
    · rcases results with _ | ⟨r0, _ | ⟨r1, _ | ⟨r2, rrest⟩⟩⟩
      · simp
      · simp
      · rw [if_neg (by simp only [List.length_cons, List.length_nil]; omega)]
        simp only [List.getElem?_cons_zero, List.getElem?_cons_succ,
          List.length_cons, List.length_nil]
        rw [show (decide (2 ≤ prest.length + 1 + 1)) = true from by simp]
        by_cases h0 : isContextType p0 <;>
          by_cases h1 : isErrorType r1 <;>
          by_cases h2 : isProtoMessage p1 <;>
          by_cases h3 : isProtoMessage r0 <;>
          cases hrn : receiverNamedType recvT <;>
          simp_all [isProtoMessage]
      · rw [if_pos (Or.inr (by simp only [List.length_cons]; omega))]
        simp [show ¬ (rrest.length + 1 + 1 + 1 = 2) from by omega]

/-! ## SSA values and the nil-flow analyzer (nil_flow.go)

An SSA value graph is a list of value kinds; a value is its index, and the
Go `nil` value corresponds to an out-of-range index.  Statically resolved
callees are indices into a table of function bodies, of which the summary
computation only inspects the return instructions (block by block,
instruction by instruction, looking at the kind of the first result). -/

/-- The SSA value kinds `ValueNilStatus` discriminates: `*ssa.Const` (with
its `IsNil()`), `*ssa.Alloc`, `*ssa.MakeInterface`, `*ssa.ChangeInterface`,
`*ssa.Phi` (with its edge values), `*ssa.UnOp` (with whether `Op` is
`token.MUL`), `*ssa.Call` (with its `StaticCallee`, `none` when there is
none), and the `default` case. -/
inductive ValKind where
  | constV (isNil : Bool)
  | allocV
  | makeInterfaceV (x : Nat)
  | changeInterfaceV (x : Nat)
  | phiV (edges : List Nat)
  | unOpV (isMul : Bool) (x : Nat)
  | callV (callee : Option Nat)
  | otherV
deriving DecidableEq, Repr

/-- The kind of a return instruction's first result, as `callNilStatus`
discriminates it: `*ssa.Alloc`, `*ssa.Const` (with `IsNil()`), `default`. -/
inductive RetFirst where
  | allocR
  | constR (isNil : Bool)
  | otherR
deriving DecidableEq, Repr

/-- A callee instruction as seen by `callNilStatus`: a `*ssa.Return` with
the kinds of its results, or anything else. -/
inductive CalleeInstr where
  | retI (results : List RetFirst)
  | otherI
deriving DecidableEq, Repr

/-- A callee function body: its basic blocks in order.  An external or
body-less function has `blocks = []` (`fn.Blocks == nil`). -/
structure FuncData where
  blocks : List (List CalleeInstr)

/-- A Go `map[...]NilStatus` keyed by value / function index. -/
def Cache : Type := Nat → Option NilStatus

/-- `NilFlowAnalyzer`'s state: the `visited` per-query value cache and the
`funcSummary` global per-callee cache. -/
structure AState where
  visited : Cache
  funcSummary : Cache

/-- Map insertion `m[k] = s`. -/
def primeCache (c : Cache) (v : Nat) (s : NilStatus) : Cache :=
  fun w => if w = v then some s else c w

/-- `a.visited[v] = s`. -/
def primeVisited (st : AState) (v : Nat) (s : NilStatus) : AState :=
  { st with visited := primeCache st.visited v s }

/-- The empty map. -/
def emptyCache : Cache := fun _ => none

/-- `Reset` from nil_flow.go: clears `visited`; `funcSummary` is kept
across Resets. -/
def resetAnalyzer (st : AState) : AState :=
  { st with visited := emptyCache }

/-- The inner loop of `callNilStatus` over one block's instructions:
returns with no results are skipped, otherwise the first result's kind is
joined in, breaking once the running status reaches `MaybeNil` or
`DefinitelyNil`. -/
def summarizeInstrs : NilStatus → List CalleeInstr → NilStatus
  | status, [] => status
  | status, CalleeInstr.otherI :: rest => summarizeInstrs status rest
  | status, CalleeInstr.retI [] :: rest => summarizeInstrs status rest
  | status, CalleeInstr.retI (rv :: _) :: rest =>
    let status' :=
      match rv with
      | .allocR => joinNilStatus status notNil
      | .constR true => joinNilStatus status definitelyNil
      | .constR false => joinNilStatus status notNil
      | .otherR => joinNilStatus status maybeNil
    if status' = maybeNil ∨ status' = definitelyNil then status'
    else summarizeInstrs status' rest

/-- The outer loop of `callNilStatus` over the callee's blocks, with the
same break condition. -/
def summarizeBlocks : NilStatus → List (List CalleeInstr) → NilStatus
  | status, [] => status
  | status, b :: rest =>
    let status' := summarizeInstrs status b
    if status' = maybeNil ∨ status' = definitelyNil then status'
    else summarizeBlocks status' rest

/-- `callNilStatus` from nil_flow.go: `none` callee is a call without a
static callee (`StaticCallee() == nil`, status `Unknown`); a cached summary
is reused; otherwise the callee's return sites are folded starting from
`NotNil` and the result is stored globally under the callee.  (An index
outside the function table does not correspond to any Go value — a non-nil
`*ssa.Function` always has a body record — and is mapped to the
`StaticCallee() == nil` outcome.) -/
def callSummary (funcs : List FuncData) (fs : Cache) (callee : Option Nat) :
    NilStatus × Cache :=
  match callee with
  | none => (unknown, fs)
  | some c =>
    match fs c with
    | some s => (s, fs)
    | none =>
      match funcs[c]? with
      | none => (unknown, fs)
      | some F =>
        let status := summarizeBlocks notNil F.blocks
        (status, primeCache fs c status)

/-- The `for _, edge := range val.Edges` loop of the `*ssa.Phi` case,
parameterized by the recursive evaluation `f` of one edge: join each edge's
status, breaking once the status reaches `MaybeNil` or `DefinitelyNil`.
`none` propagates fuel exhaustion. -/
def phiFoldWith (f : AState → Nat → Option NilStatus × AState) :
    AState → NilStatus → List Nat → Option NilStatus × AState
  | st, status, [] => (some status, st)
  | st, status, e :: rest =>
    match f st e with
    | (none, st') => (none, st')
    | (some es, st') =>
      let status' := joinNilStatus status es
      if status' = maybeNil ∨ status' = definitelyNil then (some status', st')
      else phiFoldWith f st' status' rest

/-- `ValueNilStatus` from nil_flow.go, with explicit fuel.  A `nil` value
(out-of-range index) is `Unknown`; a cached value is returned as is;
otherwise the cache is primed with `Unknown` for `v` to break cycles and
the kind is dispatched.  One unit of fuel is spent exactly when a fresh
value is seeded, so fuel `vals.length` is always sufficient
(`vnsGo_total` below); `none` reports exhaustion and never occurs from a
reset cache with that fuel. -/
def vnsGo (funcs : List FuncData) (vals : List ValKind) :
    Nat → AState → Nat → Option NilStatus × AState
  | fuel, st, v =>
    match vals[v]? with
    | none => (some unknown, st)
    | some k =>
      match st.visited v with
      | some s => (some s, st)
      | none =>
        match fuel with
        | 0 => (none, st)
        | fuel + 1 =>
          let st1 := primeVisited st v unknown
          match k with
          | .constV isNil =>
            let s := if isNil then definitelyNil else notNil
            (some s, primeVisited st1 v s)
          | .allocV => (some notNil, primeVisited st1 v notNil)
          | .makeInterfaceV x =>
            match vnsGo funcs vals fuel st1 x with
            | (none, st2) => (none, st2)
            | (some s, st2) => (some s, primeVisited st2 v s)
          | .changeInterfaceV x =>
            match vnsGo funcs vals fuel st1 x with
            | (none, st2) => (none, st2)
            | (some s, st2) => (some s, primeVisited st2 v s)
          | .phiV edges =>
            match phiFoldWith (vnsGo funcs vals fuel) st1 notNil edges with
            | (none, st2) => (none, st2)
            | (some s, st2) => (some s, primeVisited st2 v s)
          | .unOpV isMul x =>
            if isMul then
              match vnsGo funcs vals fuel st1 x with
              | (none, st2) => (none, st2)
              | (some s, st2) => (some s, primeVisited st2 v s)
            else (some unknown, st1)
          | .callV callee =>
            let p := callSummary funcs st1.funcSummary callee
            (some p.1,
              { visited := primeCache st1.visited v p.1, funcSummary := p.2 })
          | .otherV => (some unknown, primeVisited st1 v unknown)

/-- `ValueNilStatus` with the sufficient fuel `vals.length`. -/
def valueNilStatus (funcs : List FuncData) (vals : List ValKind)
    (st : AState) (v : Nat) : Option NilStatus × AState :=
  vnsGo funcs vals vals.length st v

/-- `IsMaybeNil` from nil_flow.go: status in
{MaybeNil, DefinitelyNil, Unknown}.  The `none` arm is unreachable
(`vnsGo_total`); it conservatively answers `true` ("not provably
non-nil"). -/
def isMaybeNil (funcs : List FuncData) (vals : List ValKind)
    (st : AState) (v : Nat) : Bool × AState :=
  match valueNilStatus funcs vals st v with
  | (some s, st') =>
    (decide (s = maybeNil ∨ s = definitelyNil ∨ s = unknown), st')
  | (none, st') => (true, st')

/-! ## C4: the procedure summary -/

/-- Modelled from the spec: the contribution of a return site's first
result — fresh allocation `NotNull`, null constant `DefinitelyNull`,
non-null constant `NotNull`, anything else `MaybeNull`. -/
def retContrib : RetFirst → NilStatus
  | .allocR => notNil
  | .constR true => definitelyNil
  | .constR false => notNil
  | .otherR => maybeNil

/-- The return sites (first results of result-carrying returns) of one
block, in program order. -/
def blockRetSites : List CalleeInstr → List RetFirst
  | [] => []
  | CalleeInstr.retI (rv :: _) :: rest => rv :: blockRetSites rest
  | CalleeInstr.retI [] :: rest => blockRetSites rest
  | CalleeInstr.otherI :: rest => blockRetSites rest

/-- All return sites of a function body, in program order. -/
def funcRetSites : List (List CalleeInstr) → List RetFirst
  | [] => []
  | b :: rest => blockRetSites b ++ funcRetSites rest

/-- Modelled from the spec: the join over all return sites of their
contributions — for a first site `r` and further sites, fold the join of
the contributions starting from `retContrib r`, with no extra seed.  (For a
callee with no return sites the spec leaves the join undefined; the code
returns its `NotNil` loop seed there, see C10, and this definition makes
the same choice so that the deviation isolated in `c4_counterexample` is
exactly the seed's effect on non-empty site lists.) -/
def specJoinSites : List RetFirst → NilStatus
  | [] => notNil
  | r :: rest =>
    rest.foldl (fun s x => joinNilStatus s (retContrib x)) (retContrib r)

/-- `MaybeNil` absorbs every further return-site contribution. -/
theorem foldl_retContrib_maybe (sites : List RetFirst) :
    sites.foldl (fun s r => joinNilStatus s (retContrib r)) maybeNil
      = maybeNil := by
  induction sites with
  | nil => rfl
  | cons r rest ih =>
    rw [List.foldl_cons,
      show joinNilStatus maybeNil (retContrib r) = maybeNil from by
        cases r with
        | constR b => cases b <;> rfl
        | allocR => rfl
        | otherR => rfl]
    exact ih

/-- The per-return `switch` of `callNilStatus` is the join with the spec's
contribution. -/
theorem summarize_switch_eq (status : NilStatus) (rv : RetFirst) :
    (match rv with
      | .allocR => joinNilStatus status notNil
      | .constR true => joinNilStatus status definitelyNil
      | .constR false => joinNilStatus status notNil
      | .otherR => joinNilStatus status maybeNil)
      = joinNilStatus status (retContrib rv) := by
  cases rv with
  | constR b => cases b <;> rfl
  | allocR => rfl
  | otherR => rfl

/-- The running status of the summary loop stays in {NotNil, MaybeNil},
and joining a contribution keeps it there. -/
theorem join_retContrib_cases (status : NilStatus) (rv : RetFirst)
    (h : status = notNil ∨ status = maybeNil) :
    joinNilStatus status (retContrib rv) = notNil ∨
      joinNilStatus status (retContrib rv) = maybeNil := by
  rcases h with h | h <;> subst h <;>
    (cases rv with
     | constR b => cases b <;> simp [joinNilStatus, retContrib]
     | allocR => simp [joinNilStatus, retContrib]
     | otherR => simp [joinNilStatus, retContrib])

/-- The inner summary loop, with its break, equals the plain left fold of
the joins over the block's return sites. -/
theorem summarizeInstrs_eq_foldl (b : List CalleeInstr) :
    ∀ status, status = notNil ∨ status = maybeNil →
      summarizeInstrs status b
          = (blockRetSites b).foldl
              (fun s r => joinNilStatus s (retContrib r)) status ∧
        (summarizeInstrs status b = notNil ∨
          summarizeInstrs status b = maybeNil) := by
  induction b with
  | nil => intro status h; exact ⟨rfl, h⟩
  | cons i rest ih =>
    intro status h
    match i with
    | CalleeInstr.otherI =>
      simpa [summarizeInstrs, blockRetSites] using ih status h
    | CalleeInstr.retI [] =>
      simpa [summarizeInstrs, blockRetSites] using ih status h
    | CalleeInstr.retI (rv :: rs) =>
      rw [show summarizeInstrs status (CalleeInstr.retI (rv :: rs) :: rest)
            = (if joinNilStatus status (retContrib rv) = maybeNil ∨
                  joinNilStatus status (retContrib rv) = definitelyNil then
                joinNilStatus status (retContrib rv)
              else summarizeInstrs (joinNilStatus status (retContrib rv)) rest)
          from by
            cases rv with
            | constR bb => cases bb <;> rfl
            | allocR => rfl
            | otherR => rfl]
      rw [show blockRetSites (CalleeInstr.retI (rv :: rs) :: rest)
            = rv :: blockRetSites rest from rfl, List.foldl_cons]
      rcases join_retContrib_cases status rv h with hj | hj
      · rw [if_neg (by simp [hj]), hj]
        exact ih notNil (Or.inl rfl)
      · rw [if_pos (Or.inl hj), hj, foldl_retContrib_maybe]
        exact ⟨rfl, Or.inr rfl⟩

/-- The outer summary loop, with its break, equals the plain left fold of
the joins over all the function's return sites. -/
theorem summarizeBlocks_eq_foldl (blocks : List (List CalleeInstr)) :
    ∀ status, status = notNil ∨ status = maybeNil →
      summarizeBlocks status blocks
          = (funcRetSites blocks).foldl
              (fun s r => joinNilStatus s (retContrib r)) status ∧
        (summarizeBlocks status blocks = notNil ∨
          summarizeBlocks status blocks = maybeNil) := by
  induction blocks with
  | nil => intro status h; exact ⟨rfl, h⟩
  | cons b rest ih =>
    intro status h
    rw [show summarizeBlocks status (b :: rest)
          = (if summarizeInstrs status b = maybeNil ∨
                summarizeInstrs status b = definitelyNil then
              summarizeInstrs status b
            else summarizeBlocks (summarizeInstrs status b) rest)
        from by rw [summarizeBlocks],
      show funcRetSites (b :: rest) = blockRetSites b ++ funcRetSites rest
        from rfl, List.foldl_append]
    obtain ⟨heq, hmem⟩ := summarizeInstrs_eq_foldl b status h
    rcases hmem with hm | hm
    · rw [if_neg (by simp [hm]), ← heq]
      exact ih _ (Or.inl hm)
    · rw [if_pos (Or.inl hm), ← heq, hm, foldl_retContrib_maybe]
      exact ⟨rfl, Or.inr rfl⟩

/-- No return-site contribution is `Unknown`. -/
theorem retContrib_ne_unknown : ∀ r : RetFirst, retContrib r ≠ unknown := by
  intro r
  cases r with
  | constR b => cases b <;> decide
  | allocR => decide
  | otherR => decide

/-- The join of two non-`Unknown` elements is not `Unknown`. -/
theorem join_ne_unknown :
    ∀ a b : NilStatus, a ≠ unknown → b ≠ unknown →
      joinNilStatus a b ≠ unknown := by
  decide

/-- The join is associative away from `Unknown` (it is not associative in
general: `(NotNil ⊔ DefNil) ⊔ Unknown = Unknown` but
`NotNil ⊔ (DefNil ⊔ Unknown) = MaybeNil`). -/
theorem joinNilStatus_assoc_noU :
    ∀ a b c : NilStatus, a ≠ unknown → b ≠ unknown → c ≠ unknown →
      joinNilStatus (joinNilStatus a b) c
        = joinNilStatus a (joinNilStatus b c) := by
  decide

/-- A seed can be hoisted out of the return-site fold, away from
`Unknown`. -/
theorem foldl_join_hoist :
    ∀ (l : List RetFirst) (a b : NilStatus), a ≠ unknown → b ≠ unknown →
      l.foldl (fun s r => joinNilStatus s (retContrib r)) (joinNilStatus a b)
        = joinNilStatus a
            (l.foldl (fun s r => joinNilStatus s (retContrib r)) b) := by
  intro l
  induction l with
  | nil => intro a b _ _; rfl
  | cons r rest ih =>
    intro a b ha hb
    rw [List.foldl_cons, List.foldl_cons,
      joinNilStatus_assoc_noU a b (retContrib r) ha hb
        (retContrib_ne_unknown r)]
    exact ih a (joinNilStatus b (retContrib r)) ha
      (join_ne_unknown b (retContrib r) hb (retContrib_ne_unknown r))

/-- The code's `NotNil`-seeded running join equals the spec's join over the
return sites joined once more with `NotNil` — which weakens a
`DefinitelyNil` join to `MaybeNil` and leaves the other outcomes
unchanged. -/
theorem seeded_join_eq (sites : List RetFirst) :
    sites.foldl (fun s r => joinNilStatus s (retContrib r)) notNil
      = joinNilStatus notNil (specJoinSites sites) := by
  cases sites with
  | nil => rfl
  | cons r rest =>
    rw [show specJoinSites (r :: rest)
        = rest.foldl (fun s x => joinNilStatus s (retContrib x)) (retContrib r)
      from rfl, List.foldl_cons,
      show joinNilStatus notNil (retContrib r)
        = joinNilStatus notNil (retContrib r) from rfl]
    exact foldl_join_hoist rest notNil (retContrib r) (by decide)
      (retContrib_ne_unknown r)

/-- C4 counterexample callee: its single return site returns the nil
constant (`func f() *T { return nil }`). -/
def c4NilRetF : FuncData := ⟨[[CalleeInstr.retI [RetFirst.constR true]]]⟩

/-- C4, counterexample: for a callee whose every return site is a null
constant, the claim's "join over C's return sites" is `DefinitelyNull`,
but the code seeds its running status at `NotNil` and computes `MaybeNil`
— so the status of the call does not equal the join over the return
sites, and the claimed early termination on `DefinitelyNull` never
fires. -/
theorem c4_counterexample :
    funcRetSites c4NilRetF.blocks = [RetFirst.constR true] ∧
    specJoinSites (funcRetSites c4NilRetF.blocks) = definitelyNil ∧
    callSummary [c4NilRetF] emptyCache (some 0)
      = (maybeNil, primeCache emptyCache 0 maybeNil) ∧
    (maybeNil : NilStatus) ≠ definitelyNil :=
  ⟨rfl, rfl, rfl, by decide⟩

/-- C4, amended: for a call with statically known callee `c` whose summary
is not yet cached, `callNilStatus` computes the `NotNil`-seeded running
join of the spec's contributions over `c`'s return sites — equivalently,
the join over all return sites joined once more with the `NotNil` seed,
which turns an all-nil `DefinitelyNull` join into `MaybeNull` (so the
loop's break can only fire on `MaybeNull`) and leaves the other outcomes
unchanged; the result is stored globally under `c`; any query against a
cached summary returns it unchanged, `Reset` does not touch the summary
cache, and `ValueNilStatus` on an uncached call value returns the callee
summary for the current summary cache. -/
theorem c4_call_summary_amended (funcs : List FuncData) (F : FuncData)
    (c : Nat) (fs : Cache) (h1 : funcs[c]? = some F) (h2 : fs c = none) :
    callSummary funcs fs (some c)
        = (joinNilStatus notNil (specJoinSites (funcRetSites F.blocks)),
           primeCache fs c
             (joinNilStatus notNil (specJoinSites (funcRetSites F.blocks)))) ∧
    (callSummary funcs fs (some c)).2 c
        = some (joinNilStatus notNil (specJoinSites (funcRetSites F.blocks))) ∧
    (∀ (fs2 : Cache) (s : NilStatus), fs2 c = some s →
      callSummary funcs fs2 (some c) = (s, fs2)) ∧
    (∀ st : AState, (resetAnalyzer st).funcSummary = st.funcSummary) ∧
    (∀ (vals : List ValKind) (v fuel : Nat) (st : AState),
      vals[v]? = some (ValKind.callV (some c)) → st.visited v = none →
      (vnsGo funcs vals (fuel + 1) st v).1
        = some (callSummary funcs st.funcSummary (some c)).1) := by
  have hmain : callSummary funcs fs (some c)
      = (joinNilStatus notNil (specJoinSites (funcRetSites F.blocks)),
         primeCache fs c
           (joinNilStatus notNil (specJoinSites (funcRetSites F.blocks)))) := by
    unfold callSummary
    simp only [h2, h1]
    have hfold := (summarizeBlocks_eq_foldl F.blocks notNil (Or.inl rfl)).1
    simp only [hfold, seeded_join_eq]
  refine ⟨hmain, ?_, ?_, ?_, ?_⟩
  · rw [hmain]
    simp [primeCache]
  · intro fs2 s hs
    unfold callSummary
    simp only [hs]
  · intro st; rfl
  · intro vals v fuel st hv hvis
    rw [vnsGo]
    simp only [hv, hvis]
    rfl

/-- C4 witness callee: one block, a nil-constant return followed by an
alloc return (so the break fires and the seeded join is `MaybeNil`,
matching the spec join here since it is already `MaybeNull`). -/
def c4F : FuncData :=
  ⟨[[CalleeInstr.retI [RetFirst.constR true],
     CalleeInstr.retI [RetFirst.allocR]]]⟩

/-- C4 witness: the amended theorem applied at the concrete callee table
`[c4F]` with an empty summary cache; the computed summary is `MaybeNil`. -/
theorem c4_call_summary_amended_witness :
    callSummary [c4F] emptyCache (some 0)
        = (joinNilStatus notNil (specJoinSites (funcRetSites c4F.blocks)),
           primeCache emptyCache 0
             (joinNilStatus notNil (specJoinSites (funcRetSites c4F.blocks)))) ∧
    joinNilStatus notNil (specJoinSites (funcRetSites c4F.blocks))
      = maybeNil :=
  ⟨(c4_call_summary_amended [c4F] c4F 0 emptyCache rfl rfl).1, rfl⟩

/-! ## Result-free callees (towards C10) -/

/-- An instruction that is not a result-carrying return. -/
def retFreeInstr : CalleeInstr → Bool
  | CalleeInstr.retI (_ :: _) => false
  | _ => true

/-- A function with no return instruction carrying a result — in
particular any function with no blocks, such as an external function. -/
def retFreeFunc (F : FuncData) : Bool :=
  F.blocks.all (fun b => b.all retFreeInstr)

/-- The inner summary loop ignores result-free instructions. -/
theorem summarizeInstrs_retFree (b : List CalleeInstr)
    (h : b.all retFreeInstr = true) :
    ∀ status, summarizeInstrs status b = status := by
  induction b with
  | nil => intro status; rfl
  | cons i rest ih =>
    intro status
    simp only [List.all_cons, Bool.and_eq_true] at h
    match i, h with
    | CalleeInstr.otherI, ⟨_, hrest⟩ =>
      rw [summarizeInstrs]; exact ih hrest status
    | CalleeInstr.retI [], ⟨_, hrest⟩ =>
      rw [summarizeInstrs]; exact ih hrest status
    | CalleeInstr.retI (rv :: rs), ⟨hfalse, _⟩ =>
      simp [retFreeInstr] at hfalse

/-- A result-free block list leaves the summary seed unchanged. -/
theorem summarizeBlocks_retFree_aux :
    ∀ (blocks : List (List CalleeInstr)),
      blocks.all (fun b => b.all retFreeInstr) = true →
      ∀ status, summarizeBlocks status blocks = status := by
  intro blocks
  induction blocks with
  | nil => intro _ _; rfl
  | cons b rest ih =>
    intro h status
    simp only [List.all_cons, Bool.and_eq_true] at h
    rw [summarizeBlocks, summarizeInstrs_retFree b h.1]
    split
    · rfl
    · exact ih h.2 status

/-- A result-free callee's summary loop returns the seed unchanged. -/
theorem summarizeBlocks_retFree (F : FuncData)
    (h : retFreeFunc F = true) :
    ∀ status, summarizeBlocks status F.blocks = status :=
  summarizeBlocks_retFree_aux F.blocks h

/-! ## C8: termination and cycle safety of `ValueNilStatus`

The Go recursion terminates because the `visited` map is primed before
recursing: every recursive call either hits the cache or strictly shrinks
the set of unvisited values.  In the fuel embedding this becomes: fuel
`vals.length` never runs out (`vnsGo_total`), because one unit of fuel is
consumed exactly when a fresh value is seeded. -/

/-- The unvisited in-range values of a state. -/
def unvis (vals : List ValKind) (st : AState) : Finset Nat :=
  (Finset.range vals.length).filter (fun w => st.visited w = none)

theorem unvis_primeVisited (vals : List ValKind) (st : AState) (v : Nat)
    (s : NilStatus) :
    unvis vals (primeVisited st v s) = (unvis vals st).erase v := by
  ext w
  simp only [unvis, primeVisited, primeCache, Finset.mem_filter,
    Finset.mem_erase, Finset.mem_range]
  by_cases hw : w = v <;> simp [hw] <;> tauto

theorem unvis_mem (vals : List ValKind) (st : AState) (v : Nat)
    (k : ValKind) (hk : vals[v]? = some k) (hvis : st.visited v = none) :
    v ∈ unvis vals st := by
  have hlt : v < vals.length := by
    by_contra hge
    rw [List.getElem?_eq_none (Nat.le_of_not_lt hge)] at hk
    exact Option.noConfusion hk
  simp [unvis, Finset.mem_filter, Finset.mem_range, hvis, hlt]

theorem unvis_reset (vals : List ValKind) (fs0 : Cache) :
    unvis vals ⟨emptyCache, fs0⟩ = Finset.range vals.length := by
  ext w
  simp [unvis, emptyCache]

/-- The phi loop only shrinks the unvisited set, given that each edge
evaluation does. -/
theorem phiFoldWith_mono (vals : List ValKind)
    (f : AState → Nat → Option NilStatus × AState)
    (hf : ∀ st e, unvis vals (f st e).2 ⊆ unvis vals st) :
    ∀ (edges : List Nat) (st : AState) (status : NilStatus),
      unvis vals (phiFoldWith f st status edges).2 ⊆ unvis vals st := by
  intro edges
  induction edges with
  | nil => intro st status; exact subset_rfl
  | cons e rest ih =>
    intro st status
    rw [phiFoldWith]
    rcases hfe : f st e with ⟨ro, st'⟩
    have hsub : unvis vals st' ⊆ unvis vals st := by
      have := hf st e; rw [hfe] at this; exact this
    cases ro with
    | none => exact hsub
    | some es =>
      dsimp only
      split
      · exact hsub
      · exact (ih st' _).trans hsub

/-- One evaluation only shrinks the unvisited set. -/
theorem vnsGo_mono (funcs : List FuncData) (vals : List ValKind) :
    ∀ (fuel : Nat) (st : AState) (v : Nat),
      unvis vals (vnsGo funcs vals fuel st v).2 ⊆ unvis vals st := by
  intro fuel
  induction fuel with
  | zero =>
    intro st v
    rw [vnsGo]
    rcases hk : vals[v]? with _ | k
    · exact subset_rfl
    · dsimp only
      rcases hvis : st.visited v with _ | s <;> dsimp only <;> exact subset_rfl
  | succ fuel ih =>
    intro st v
    rw [vnsGo]
    rcases hk : vals[v]? with _ | k
    · exact subset_rfl
    · dsimp only
      rcases hvis : st.visited v with _ | s
      · dsimp only
        have herase : ∀ s', unvis vals (primeVisited st v s') ⊆ unvis vals st := by
          intro s'
          rw [unvis_primeVisited]
          exact Finset.erase_subset ..
        have herase2 : ∀ (st2 : AState) (s' : NilStatus),
            unvis vals st2 ⊆ unvis vals st →
            unvis vals (primeVisited st2 v s') ⊆ unvis vals st := by
          intro st2 s' hsub
          rw [unvis_primeVisited]
          exact (Finset.erase_subset ..).trans hsub
        cases k with
        | constV isNil => exact herase2 _ _ (herase _)
        | allocV => exact herase2 _ _ (herase _)
        | makeInterfaceV x =>
          rcases hrec : vnsGo funcs vals fuel (primeVisited st v unknown) x
            with ⟨ro, st2⟩
          have hsub : unvis vals st2 ⊆ unvis vals st := by
            have := ih (primeVisited st v unknown) x
            rw [hrec] at this
            exact this.trans (herase _)
          cases ro with
          | none => simpa [hrec] using hsub
          | some s' => simpa [hrec] using herase2 st2 s' hsub
        | changeInterfaceV x =>
          rcases hrec : vnsGo funcs vals fuel (primeVisited st v unknown) x
            with ⟨ro, st2⟩
          have hsub : unvis vals st2 ⊆ unvis vals st := by
            have := ih (primeVisited st v unknown) x
            rw [hrec] at this
            exact this.trans (herase _)
          cases ro with
          | none => simpa [hrec] using hsub
          | some s' => simpa [hrec] using herase2 st2 s' hsub
        | phiV edges =>
          rcases hrec : phiFoldWith (vnsGo funcs vals fuel)
              (primeVisited st v unknown) notNil edges with ⟨ro, st2⟩
          have hsub : unvis vals st2 ⊆ unvis vals st := by
            have := phiFoldWith_mono vals (vnsGo funcs vals fuel)
              (fun st' e => ih st' e) edges (primeVisited st v unknown) notNil
            rw [hrec] at this
            exact this.trans (herase _)
          cases ro with
          | none => simpa [hrec] using hsub
          | some s' => simpa [hrec] using herase2 st2 s' hsub
        | unOpV isMul x =>
          cases isMul with
          | false => simpa using herase unknown
          | true =>
            rcases hrec : vnsGo funcs vals fuel (primeVisited st v unknown) x
              with ⟨ro, st2⟩
            have hsub : unvis vals st2 ⊆ unvis vals st := by
              have := ih (primeVisited st v unknown) x
              rw [hrec] at this
              exact this.trans (herase _)
            cases ro with
            | none => simpa [hrec] using hsub
            | some s' => simpa [hrec] using herase2 st2 s' hsub
        | callV callee =>
          dsimp only
          have : unvis vals
              ⟨primeCache (primeVisited st v unknown).visited v
                  (callSummary funcs (primeVisited st v unknown).funcSummary
                    callee).1,
                (callSummary funcs (primeVisited st v unknown).funcSummary
                  callee).2⟩
              ⊆ unvis vals st := by
            have : unvis vals
                ⟨primeCache (primeVisited st v unknown).visited v
                    (callSummary funcs (primeVisited st v unknown).funcSummary
                      callee).1,
                  (callSummary funcs (primeVisited st v unknown).funcSummary
                    callee).2⟩
                = (unvis vals (primeVisited st v unknown)).erase v := by
              rw [← unvis_primeVisited]
              rfl
            rw [this]
            exact (Finset.erase_subset ..).trans (herase _)
          exact this
        | otherV => exact herase2 _ _ (herase _)
      · dsimp only
        exact subset_rfl

/-- The phi loop never exhausts the fuel, given that each edge evaluation
with at least this much slack does not. -/
theorem phiFoldWith_total (vals : List ValKind) (fuel : Nat)
    (f : AState → Nat → Option NilStatus × AState)
    (hmono : ∀ st e, unvis vals (f st e).2 ⊆ unvis vals st)
    (hf : ∀ st e, (unvis vals st).card ≤ fuel → (f st e).1.isSome = true) :
    ∀ (edges : List Nat) (st : AState) (status : NilStatus),
      (unvis vals st).card ≤ fuel →
      (phiFoldWith f st status edges).1.isSome = true := by
  intro edges
  induction edges with
  | nil => intro st status _; rfl
  | cons e rest ih =>
    intro st status hcard
    rw [phiFoldWith]
    rcases hfe : f st e with ⟨ro, st'⟩
    cases ro with
    | none =>
      have := hf st e hcard
      rw [hfe] at this
      exact absurd this (by simp)
    | some es =>
      dsimp only
      split
      · rfl
      · refine ih st' _ (le_trans (Finset.card_le_card ?_) hcard)
        have := hmono st e
        rw [hfe] at this
        exact this

/-- Fuel sufficiency: with at least as much fuel as there are unvisited
values, `ValueNilStatus` never exhausts it — the Go recursion terminates. -/
theorem vnsGo_total (funcs : List FuncData) (vals : List ValKind) :
    ∀ (fuel : Nat) (st : AState) (v : Nat),
      (unvis vals st).card ≤ fuel →
      (vnsGo funcs vals fuel st v).1.isSome = true := by
  intro fuel
  induction fuel with
  | zero =>
    intro st v hcard
    rw [vnsGo]
    rcases hk : vals[v]? with _ | k
    · rfl
    · dsimp only
      rcases hvis : st.visited v with _ | s
      · exfalso
        have hmem : v ∈ unvis vals st := unvis_mem vals st v k hk hvis
        have : 0 < (unvis vals st).card := Finset.card_pos.mpr ⟨v, hmem⟩
        omega
      · rfl
  | succ fuel ih =>
    intro st v hcard
    rw [vnsGo]
    rcases hk : vals[v]? with _ | k
    · rfl
    · dsimp only
      rcases hvis : st.visited v with _ | s
      · dsimp only
        have hmem : v ∈ unvis vals st := unvis_mem vals st v k hk hvis
        have hcard1 : (unvis vals (primeVisited st v unknown)).card ≤ fuel := by
          rw [unvis_primeVisited, Finset.card_erase_of_mem hmem]
          omega
        cases k with
        | constV isNil => rfl
        | allocV => rfl
        | makeInterfaceV x =>
          rcases hrec : vnsGo funcs vals fuel (primeVisited st v unknown) x
            with ⟨ro, st2⟩
          cases ro with
          | none =>
            have := ih (primeVisited st v unknown) x hcard1
            rw [hrec] at this
            exact absurd this (by simp)
          | some s' => simp [hrec]
        | changeInterfaceV x =>
          rcases hrec : vnsGo funcs vals fuel (primeVisited st v unknown) x
            with ⟨ro, st2⟩
          cases ro with
          | none =>
            have := ih (primeVisited st v unknown) x hcard1
            rw [hrec] at this
            exact absurd this (by simp)
          | some s' => simp [hrec]
        | phiV edges =>
          rcases hrec : phiFoldWith (vnsGo funcs vals fuel)
              (primeVisited st v unknown) notNil edges with ⟨ro, st2⟩
          cases ro with
          | none =>
            have := phiFoldWith_total vals fuel (vnsGo funcs vals fuel)
              (fun st' e => vnsGo_mono funcs vals fuel st' e)
              (fun st' e h => ih st' e h) edges
              (primeVisited st v unknown) notNil hcard1
            rw [hrec] at this
            exact absurd this (by simp)
          | some s' => simp [hrec]
        | unOpV isMul x =>
          cases isMul with
          | false => rfl
          | true =>
            rcases hrec : vnsGo funcs vals fuel (primeVisited st v unknown) x
              with ⟨ro, st2⟩
            cases ro with
            | none =>
              have := ih (primeVisited st v unknown) x hcard1
              rw [hrec] at this
              exact absurd this (by simp)
            | some s' => simp [hrec]
        | callV callee => rfl
        | otherV => rfl
      · rfl

/-- The operand edges evaluation recurses into: the wrapped operand of an
interface construction/change, the phi edges, the operand of a `*`
dereference; constants, allocations, calls and unrecognized kinds have no
operand edges. -/
def edgeOf : ValKind → List Nat
  | .makeInterfaceV x => [x]
  | .changeInterfaceV x => [x]
  | .phiV edges => edges
  | .unOpV isMul x => if isMul then [x] else []
  | _ => []

/-- `w` is an operand of `v` in the value graph. -/
def EdgeRel (vals : List ValKind) (v w : Nat) : Prop :=
  ∃ k, vals[v]? = some k ∧ w ∈ edgeOf k

/-- `v` lies on an operand cycle. -/
def OnCycle (vals : List ValKind) (v : Nat) : Prop :=
  Relation.TransGen (EdgeRel vals) v v

/-- The invariant of C8: cached statuses of cycle values are never
`NotNil`. -/
def CycInv (vals : List ValKind) (c : Cache) : Prop :=
  ∀ v, OnCycle vals v → ∀ s, c v = some s → s ≠ notNil

theorem cycInv_empty (vals : List ValKind) : CycInv vals emptyCache := by
  intro v _ s hs
  exact Option.noConfusion hs

theorem cycInv_prime_safe {vals : List ValKind} {c : Cache}
    (h : CycInv vals c) {s : NilStatus} (hs : s ≠ notNil) (v : Nat) :
    CycInv vals (primeCache c v s) := by
  intro w hw s' hs'
  unfold primeCache at hs'
  by_cases hwv : w = v
  · rw [if_pos hwv] at hs'
    cases hs'
    exact hs
  · rw [if_neg hwv] at hs'
    exact h w hw s' hs'

theorem cycInv_prime_nocyc {vals : List ValKind} {c : Cache}
    (h : CycInv vals c) {v : Nat} (hv : ¬ OnCycle vals v) (s : NilStatus) :
    CycInv vals (primeCache c v s) := by
  intro w hw s' hs'
  unfold primeCache at hs'
  by_cases hwv : w = v
  · exact absurd (hwv ▸ hw) hv
  · rw [if_neg hwv] at hs'
    exact h w hw s' hs'

/-- A value with no operand edges is on no cycle. -/
theorem noCycle_of_noEdge {vals : List ValKind} {v : Nat} {k : ValKind}
    (hk : vals[v]? = some k) (he : edgeOf k = []) : ¬ OnCycle vals v := by
  intro hcyc
  obtain ⟨w, hrel, _⟩ := Relation.TransGen.head'_iff.mp hcyc
  obtain ⟨k', hk', hmem⟩ := hrel
  rw [hk] at hk'
  cases hk'
  rw [he] at hmem
  exact (List.not_mem_nil _) hmem

/-- A cycle through `v` continues through one of `v`'s operand edges, which
is itself on a cycle. -/
theorem cycle_successor {vals : List ValKind} {v : Nat} {k : ValKind}
    (hcyc : OnCycle vals v) (hk : vals[v]? = some k) :
    ∃ w ∈ edgeOf k, OnCycle vals w := by
  obtain ⟨w, hrel, hwv⟩ := Relation.TransGen.head'_iff.mp hcyc
  obtain ⟨k', hk', hmem⟩ := hrel
  rw [hk] at hk'
  cases hk'
  exact ⟨w, hmem, Relation.TransGen.tail' hwv ⟨k, hk, hmem⟩⟩

/-- The join returns `NotNil` only when both sides are `NotNil`. -/
theorem join_eq_notNil :
    ∀ a b : NilStatus, joinNilStatus a b = notNil → a = notNil ∧ b = notNil := by
  decide

/-- The phi loop's result is never `NotNil` once the running status is not
`NotNil` or some remaining edge is on a cycle, given the same for each edge
evaluation; and it preserves the cycle invariant. -/
theorem phiFoldWith_cyc (vals : List ValKind)
    (f : AState → Nat → Option NilStatus × AState)
    (hf : ∀ st e, CycInv vals st.visited →
      CycInv vals (f st e).2.visited ∧
      (OnCycle vals e → ∀ s, (f st e).1 = some s → s ≠ notNil)) :
    ∀ (edges : List Nat) (st : AState) (status : NilStatus),
      CycInv vals st.visited →
      CycInv vals (phiFoldWith f st status edges).2.visited ∧
      ((status ≠ notNil ∨ ∃ w ∈ edges, OnCycle vals w) →
        ∀ s, (phiFoldWith f st status edges).1 = some s → s ≠ notNil) := by
  intro edges
  induction edges with
  | nil =>
    intro st status hinv
    refine ⟨hinv, ?_⟩
    rintro (h | ⟨w, hw, _⟩) s hs
    · cases hs; exact h
    · exact absurd hw (List.not_mem_nil w)
  | cons e rest ih =>
    intro st status hinv
    rw [phiFoldWith]
    rcases hfe : f st e with ⟨ro, st'⟩
    have hfe' := hf st e hinv
    rw [hfe] at hfe'
    obtain ⟨hinv', hval⟩ := hfe'
    cases ro with
    | none => exact ⟨hinv', by rintro _ s hs; cases hs⟩
    | some es =>
      dsimp only
      split
      · rename_i hbreak
        refine ⟨hinv', ?_⟩
        rintro _ s hs
        cases hs
        rcases hbreak with hb | hb <;> rw [hb] <;> simp
      · rename_i hnobreak
        have step := ih st' (joinNilStatus status es) hinv'
        refine ⟨step.1, ?_⟩
        rintro (h | ⟨w, hw, hwcyc⟩) s hs
        · refine step.2 (Or.inl ?_) s hs
          intro hj
          exact h (join_eq_notNil _ _ hj).1
        · rcases List.mem_cons.mp hw with hwe | hwrest
          · refine step.2 (Or.inl ?_) s hs
            intro hj
            exact hval (hwe ▸ hwcyc) es rfl (join_eq_notNil _ _ hj).2
          · exact step.2 (Or.inr ⟨w, hwrest, hwcyc⟩) s hs

/-- The value analysis preserves the cycle invariant, and its answer for a
value on an operand cycle is never `NotNil`. -/
theorem vnsGo_cyc (funcs : List FuncData) (vals : List ValKind) :
    ∀ (fuel : Nat) (st : AState) (v : Nat),
      CycInv vals st.visited →
      CycInv vals (vnsGo funcs vals fuel st v).2.visited ∧
      (OnCycle vals v →
        ∀ s, (vnsGo funcs vals fuel st v).1 = some s → s ≠ notNil) := by
  intro fuel
  induction fuel with
  | zero =>
    intro st v hinv
    rw [vnsGo]
    rcases hk : vals[v]? with _ | k
    · exact ⟨hinv, fun _ s hs => by cases hs; decide⟩
    · dsimp only
      rcases hvis : st.visited v with _ | s0
      · exact ⟨hinv, by rintro _ s hs; cases hs⟩
      · exact ⟨hinv, fun hcyc s hs => by cases hs; exact hinv v hcyc s0 hvis⟩
  | succ fuel ih =>
    intro st v hinv
    rw [vnsGo]
    rcases hk : vals[v]? with _ | k
    · exact ⟨hinv, fun _ s hs => by cases hs; decide⟩
    · dsimp only
      rcases hvis : st.visited v with _ | s0
      case some =>
        dsimp only
        exact ⟨hinv, fun hcyc s hs => by cases hs; exact hinv v hcyc s0 hvis⟩
      case none =>
      dsimp only
      have hinv1 : CycInv vals (primeVisited st v unknown).visited :=
        cycInv_prime_safe hinv (by decide) v
      cases k with
      | constV isNil =>
        have hnoc : ¬ OnCycle vals v := noCycle_of_noEdge hk rfl
        exact ⟨cycInv_prime_nocyc hinv1 hnoc _,
          fun hcyc => absurd hcyc hnoc⟩
      | allocV =>
        have hnoc : ¬ OnCycle vals v := noCycle_of_noEdge hk rfl
        exact ⟨cycInv_prime_nocyc hinv1 hnoc _,
          fun hcyc => absurd hcyc hnoc⟩
      | makeInterfaceV x =>
        dsimp only
        rcases hrec : vnsGo funcs vals fuel (primeVisited st v unknown) x
          with ⟨ro, st2⟩
        have hih := ih (primeVisited st v unknown) x hinv1
        rw [hrec] at hih
        cases ro with
        | none => exact ⟨hih.1, by rintro _ s hs; simp at hs⟩
        | some s =>
          dsimp only
          have hs_cyc : OnCycle vals v → s ≠ notNil := by
            intro hcyc
            obtain ⟨w, hw, hwcyc⟩ := cycle_successor hcyc hk
            rcases List.mem_singleton.mp hw with rfl
            exact hih.2 hwcyc s rfl
          refine ⟨?_, ?_⟩
          · by_cases hcyc : OnCycle vals v
            · exact cycInv_prime_safe hih.1 (hs_cyc hcyc) v
            · exact cycInv_prime_nocyc hih.1 hcyc s
          · intro hcyc s' hs'
            cases hs'
            exact hs_cyc hcyc
      | changeInterfaceV x =>
        dsimp only
        rcases hrec : vnsGo funcs vals fuel (primeVisited st v unknown) x
          with ⟨ro, st2⟩
        have hih := ih (primeVisited st v unknown) x hinv1
        rw [hrec] at hih
        cases ro with
        | none => exact ⟨hih.1, by rintro _ s hs; simp at hs⟩
        | some s =>
          dsimp only
          have hs_cyc : OnCycle vals v → s ≠ notNil := by
            intro hcyc
            obtain ⟨w, hw, hwcyc⟩ := cycle_successor hcyc hk
            rcases List.mem_singleton.mp hw with rfl
            exact hih.2 hwcyc s rfl
          refine ⟨?_, ?_⟩
          · by_cases hcyc : OnCycle vals v
            · exact cycInv_prime_safe hih.1 (hs_cyc hcyc) v
            · exact cycInv_prime_nocyc hih.1 hcyc s
          · intro hcyc s' hs'
            cases hs'
            exact hs_cyc hcyc
      | phiV edges =>
        dsimp only
        rcases hrec : phiFoldWith (vnsGo funcs vals fuel)
            (primeVisited st v unknown) notNil edges with ⟨ro, st2⟩
        have hfold := phiFoldWith_cyc vals (vnsGo funcs vals fuel)
          (fun st' e hinv' => ih st' e hinv') edges
          (primeVisited st v unknown) notNil hinv1
        rw [hrec] at hfold
        cases ro with
        | none => exact ⟨hfold.1, by rintro _ s hs; simp at hs⟩
        | some s =>
          dsimp only
          have hs_cyc : OnCycle vals v → s ≠ notNil := by
            intro hcyc
            obtain ⟨w, hw, hwcyc⟩ := cycle_successor hcyc hk
            exact hfold.2 (Or.inr ⟨w, hw, hwcyc⟩) s rfl
          refine ⟨?_, ?_⟩
          · by_cases hcyc : OnCycle vals v
            · exact cycInv_prime_safe hfold.1 (hs_cyc hcyc) v
            · exact cycInv_prime_nocyc hfold.1 hcyc s
          · intro hcyc s' hs'
            cases hs'
            exact hs_cyc hcyc
      | unOpV isMul x =>
        cases isMul with
        | false =>
          exact ⟨hinv1, fun _ s hs => by cases hs; decide⟩
        | true =>
          dsimp only
          rcases hrec : vnsGo funcs vals fuel (primeVisited st v unknown) x
            with ⟨ro, st2⟩
          have hih := ih (primeVisited st v unknown) x hinv1
          rw [hrec] at hih
          cases ro with
          | none => exact ⟨hih.1, by rintro _ s hs; simp at hs⟩
          | some s =>
            dsimp only
            have hs_cyc : OnCycle vals v → s ≠ notNil := by
              intro hcyc
              obtain ⟨w, hw, hwcyc⟩ := cycle_successor hcyc hk
              simp only [edgeOf, if_pos] at hw
              rcases List.mem_singleton.mp hw with rfl
              exact hih.2 hwcyc s rfl
            refine ⟨?_, ?_⟩
            · by_cases hcyc : OnCycle vals v
              · exact cycInv_prime_safe hih.1 (hs_cyc hcyc) v
              · exact cycInv_prime_nocyc hih.1 hcyc s
            · intro hcyc s' hs'
              cases hs'
              exact hs_cyc hcyc
      | callV callee =>
        have hnoc : ¬ OnCycle vals v := noCycle_of_noEdge hk rfl
        exact ⟨cycInv_prime_nocyc hinv1 hnoc _,
          fun hcyc => absurd hcyc hnoc⟩
      | otherV =>
        exact ⟨cycInv_prime_safe hinv1 (by decide) v,
          fun _ s hs => by cases hs; decide⟩

/-- C8: on every SSA value graph, cyclic ones included, `ValueNilStatus`
terminates (fuel `vals.length` from a reset cache is never exhausted); a
re-visit of a cached value — in particular of the `Unknown` seed placed
before a value's operands are visited — returns the cached entry without
touching the state; and no value on an operand cycle is ever assigned
`NotNil` by a query from a reset cache. -/
theorem c8_cycles_terminate (funcs : List FuncData) (vals : List ValKind)
    (fs0 : Cache) (root : Nat) :
    (vnsGo funcs vals vals.length ⟨emptyCache, fs0⟩ root).1.isSome = true ∧
    (∀ (fuel : Nat) (st : AState) (w : Nat) (s : NilStatus),
      w < vals.length → st.visited w = some s →
      vnsGo funcs vals fuel st w = (some s, st)) ∧
    (∀ (v : Nat) (s : NilStatus), OnCycle vals v →
      (vnsGo funcs vals vals.length ⟨emptyCache, fs0⟩ root).2.visited v
        = some s →
      s ≠ notNil) := by
  refine ⟨?_, ?_, ?_⟩
  · apply vnsGo_total
    rw [unvis_reset]
    simp
  · intro fuel st w s hlt hvis
    rw [vnsGo]
    simp only [List.getElem?_eq_getElem hlt, hvis]
  · intro v s hcyc hfin
    exact (vnsGo_cyc funcs vals vals.length ⟨emptyCache, fs0⟩ root
      (cycInv_empty vals)).1 v hcyc s hfin

/-- C8 witness graph: value 0 is a phi over value 1, value 1 an interface
construction over value 0 — a two-value operand cycle. -/
def c8Vals : List ValKind :=
  [ValKind.phiV [1], ValKind.makeInterfaceV 0]

/-- The two-value cycle of `c8Vals`. -/
theorem c8Vals_onCycle : OnCycle c8Vals 0 := by
  have e01 : EdgeRel c8Vals 0 1 := ⟨ValKind.phiV [1], rfl, by decide⟩
  have e10 : EdgeRel c8Vals 1 0 := ⟨ValKind.makeInterfaceV 0, rfl, by decide⟩
  exact Relation.TransGen.head e01 (Relation.TransGen.single e10)

/-- C8 witness: the theorem applied on the concrete cyclic graph — the
query from a reset cache terminates, a re-visit of the seeded value 0
returns the seed unchanged, and the status the query assigns to the cycle
value 0 (evaluated: `Unknown`) is not `NotNil`. -/
theorem c8_cycles_terminate_witness :
    (vnsGo [] c8Vals c8Vals.length ⟨emptyCache, emptyCache⟩ 0).1.isSome
      = true ∧
    vnsGo [] c8Vals 7 ⟨primeCache emptyCache 0 unknown, emptyCache⟩ 0
      = (some unknown, ⟨primeCache emptyCache 0 unknown, emptyCache⟩) ∧
    (vnsGo [] c8Vals c8Vals.length ⟨emptyCache, emptyCache⟩ 0).2.visited 0
      = some unknown ∧
    unknown ≠ notNil := by
  have h := c8_cycles_terminate [] c8Vals emptyCache 0
  refine ⟨h.1, ?_, rfl, ?_⟩
  · exact h.2.1 7 ⟨primeCache emptyCache 0 unknown, emptyCache⟩ 0 unknown
      (by decide) rfl
  · exact h.2.2 0 unknown c8Vals_onCycle rfl

/-! ## Handler driver (analyzeHandler) -/

/-- `types.Identical` on the embedded types: named types are identical iff
they are the same declared type (package path and name); composite shapes
compare structurally. -/
def typeIdentical : GoType → GoType → Bool
  | .named p1 n1 _ _, .named p2 n2 _ _ => decide (p1 = p2) && decide (n1 = n2)
  | .ptr a, .ptr b => typeIdentical a b
  | .sliceT a, .sliceT b => typeIdentical a b
  | .mapT k1 v1, .mapT k2 v2 => typeIdentical k1 k2 && typeIdentical v1 v2
  | .basicT a, .basicT b => decide (a = b)
  | _, _ => false

/-- `isResponsePointer` from handler_analysis.go: `t` is a pointer to a
named type identical to the response type. -/
def isResponsePointer (t : GoType) (respNamed : GoType) : Bool :=
  match t with
  | .ptr e =>
    match e with
    | .named p n m u => typeIdentical (.named p n m u) respNamed
    | _ => false
  | _ => false

/-- `matchRepeatedSliceField` from handler_analysis.go: the first field of
the response whose risk is `RepeatedMessagePointer` and whose Go type is
identical to the store's container type. -/
def matchRepeatedSliceField (t : GoType) (info : MsgInfo) : Option FieldInfo :=
  info.fields.find? (fun fi =>
    decide (fi.risk = FieldRisk.repeatedMessagePointer) && typeIdentical fi.typ t)

/-- A store's address expression, as the driver discriminates it:
`*ssa.FieldAddr` (with `addr.X.Type()` and `addr.Field`), `*ssa.IndexAddr`
(with `addr.X.Type()`), or anything else. -/
inductive StoreAddr where
  | fieldAddr (base : GoType) (fieldIndex : Nat)
  | indexAddr (container : GoType)
  | otherAddr

/-- A handler-body instruction as the driver sees it: a `*ssa.Store` (with
its address, the index of the stored value in the value graph, and its
source position) or anything else. -/
inductive HInstr where
  | storeInstr (addr : StoreAddr) (valIdx : Nat) (pos : Nat)
  | otherInstr

/-- A recognized handler as the driver consumes it: its body's blocks, its
value graph, its response type, and its names. -/
structure Handler where
  blocks : List (List HInstr)
  vals : List ValKind
  responseType : GoType
  serviceName : String
  methodName : String

/-- A reported diagnostic: position, message, and the field it is about. -/
structure Diag where
  pos : Nat
  message : String
  field : FieldInfo

/-- One driver step per instruction, threading the accumulated diagnostics
and the global `funcSummary` cache.  Before each `IsMaybeNil` query the
analyzer is `Reset` (fresh `visited`, kept `funcSummary`). -/
def scanStore (funcs : List FuncData) (h : Handler) (respNamed : GoType)
    (respName : String) (msgInfo : MsgInfo)
    (acc : List Diag × Cache) (i : HInstr) : List Diag × Cache :=
  match i with
  | .otherInstr => acc
  | .storeInstr addr valIdx pos =>
    match addr with
    | .fieldAddr base fieldIndex =>
      if isResponsePointer base respNamed then
        match msgInfo.fieldByID.lookup fieldIndex with
        | some fieldInfo =>
          if fieldInfo.risk = FieldRisk.messagePointer then
            let q := isMaybeNil funcs h.vals ⟨emptyCache, acc.2⟩ valIdx
            if q.1 then
              (acc.1 ++ [{ pos := pos,
                           message := "potential nil field in gRPC response "
                             ++ respName ++ "." ++ fieldInfo.name
                             ++ " (handler " ++ h.serviceName ++ "."
                             ++ h.methodName ++ ")",
                           field := fieldInfo }], q.2.funcSummary)
            else (acc.1, q.2.funcSummary)
          else acc
        | none => acc
      else acc
    | .indexAddr container =>
      match matchRepeatedSliceField container msgInfo with
      | some fieldInfo =>
        if fieldInfo.risk = FieldRisk.repeatedMessagePointer then
          let q := isMaybeNil funcs h.vals ⟨emptyCache, acc.2⟩ valIdx
          if q.1 then
            (acc.1 ++ [{ pos := pos,
                         message := "potential nil element in gRPC response slice "
                           ++ fieldInfo.name ++ " (handler "
                           ++ h.serviceName ++ "." ++ h.methodName ++ ")",
                         field := fieldInfo }], q.2.funcSummary)
          else (acc.1, q.2.funcSummary)
        else acc
      | none => acc
    | .otherAddr => acc

/-- `analyzeHandler` from handler_analysis.go: strip a pointer from the
response type, require a named type, analyze its message descriptor, skip
when no field is risky, then walk the body's stores in program order. -/
def analyzeHandler (funcs : List FuncData) (h : Handler) (fs0 : Cache) :
    List Diag × Cache :=
  match stripPtrOnce h.responseType with
  | .named p n m u =>
    match analyzeMessage (.named p n m u) with
    | some msgInfo =>
      if msgInfo.risky.isEmpty then ([], fs0)
      else
        h.blocks.foldl
          (fun acc b => b.foldl (scanStore funcs h (.named p n m u) n msgInfo) acc)
          ([], fs0)
    | none => ([], fs0)
  | _ => ([], fs0)

/-! ## C3: Safe fields never produce a diagnostic -/

/-- Diagnostics a driver step can add are about `MessagePointer` or
`RepeatedMessagePointer` fields only. -/
theorem scanStore_mem (funcs : List FuncData) (h : Handler)
    (respNamed : GoType) (respName : String) (msgInfo : MsgInfo) :
    ∀ (acc : List Diag × Cache) (i : HInstr) (d : Diag),
      d ∈ (scanStore funcs h respNamed respName msgInfo acc i).1 →
      d ∈ acc.1 ∨ (d.field.risk = FieldRisk.messagePointer ∨
        d.field.risk = FieldRisk.repeatedMessagePointer) := by
  intro acc i d hmem
  cases i with
  | otherInstr => exact Or.inl hmem
  | storeInstr addr valIdx pos =>
    cases addr with
    | otherAddr => exact Or.inl hmem
    | fieldAddr base fieldIndex =>
      simp only [scanStore] at hmem
      split at hmem
      · split at hmem
        · rename_i fieldInfo heq
          split at hmem
          · rename_i hrisk
            split at hmem
            · rcases List.mem_append.mp hmem with hin | hin
              · exact Or.inl hin
              · rcases List.mem_singleton.mp hin with rfl
                exact Or.inr (Or.inl hrisk)
            · exact Or.inl hmem
          · exact Or.inl hmem
        · exact Or.inl hmem
      · exact Or.inl hmem
    | indexAddr container =>
      simp only [scanStore] at hmem
      split at hmem
      · rename_i fieldInfo heq
        split at hmem
        · rename_i hrisk
          split at hmem
          · rcases List.mem_append.mp hmem with hin | hin
            · exact Or.inl hin
            · rcases List.mem_singleton.mp hin with rfl
              exact Or.inr (Or.inr hrisk)
          · exact Or.inl hmem
        · exact Or.inl hmem
      · exact Or.inl hmem

/-- Fold invariant transfer for diagnostic-producing steps. -/
theorem foldl_diag_inv {α : Type} (step : (List Diag × Cache) → α → (List Diag × Cache))
    (good : Diag → Prop)
    (hstep : ∀ acc i d, d ∈ (step acc i).1 → d ∈ acc.1 ∨ good d) :
    ∀ (l : List α) (acc : List Diag × Cache) (d : Diag),
      d ∈ (l.foldl step acc).1 → d ∈ acc.1 ∨ good d := by
  intro l
  induction l with
  | nil => intro acc d hd; exact Or.inl hd
  | cons i rest ih =>
    intro acc d hd
    rw [List.foldl_cons] at hd
    rcases ih (step acc i) d hd with hd' | hd'
    · exact hstep acc i d hd'
    · exact Or.inr hd'

/-- C3: every diagnostic the driver emits is for a field whose risk is
`MessagePointer` or `RepeatedMessagePointer` — a field classified `Safe`
never produces a diagnostic, whatever is stored into it. -/
theorem c3_safe_never_reported (funcs : List FuncData) (h : Handler)
    (fs0 : Cache) :
    ∀ d ∈ (analyzeHandler funcs h fs0).1,
      d.field.risk ≠ FieldRisk.safe ∧
      (d.field.risk = FieldRisk.messagePointer ∨
        d.field.risk = FieldRisk.repeatedMessagePointer) := by
  intro d hd
  have hgood : d.field.risk = FieldRisk.messagePointer ∨
      d.field.risk = FieldRisk.repeatedMessagePointer := by
    unfold analyzeHandler at hd
    split at hd
    · rename_i p n m u hresp
      split at hd
      · rename_i msgInfo hmsg
        split at hd
        · exact absurd hd (List.not_mem_nil d)
        · have := foldl_diag_inv
            (fun acc b => b.foldl
              (scanStore funcs h (.named p n m u) n msgInfo) acc)
            (fun d => d.field.risk = FieldRisk.messagePointer ∨
              d.field.risk = FieldRisk.repeatedMessagePointer)
            (fun acc b d hdb =>
              foldl_diag_inv (scanStore funcs h (.named p n m u) n msgInfo)
                _ (scanStore_mem funcs h (.named p n m u) n msgInfo)
                b acc d hdb)
            h.blocks ([], fs0) d hd
          rcases this with habs | hg
          · exact absurd habs (List.not_mem_nil d)
          · exact hg
      · exact absurd hd (List.not_mem_nil d)
    · exact absurd hd (List.not_mem_nil d)
  refine ⟨?_, hgood⟩
  rcases hgood with hg | hg <;> rw [hg] <;> decide

/-- A message type for the driver examples. -/
def exProfileT : GoType := GoType.named (some "pb") "UserProfile" true (.structU [])

/-- The risky `Profile` field of the driver examples. -/
def exProfileField : GoField :=
  GoField.mk "Profile" true (.ptr exProfileT)
    [("protobuf", "bytes,1,opt,name=profile,proto3")]

/-- The response type of the driver examples: one non-optional message
pointer field. -/
def exRespT : GoType :=
  GoType.named (some "pb") "GetUserResponse" true (.structU [exProfileField])

/-- A handler storing an explicit nil into the risky `Profile` field. -/
def c3Handler : Handler where
  blocks := [[HInstr.storeInstr (StoreAddr.fieldAddr (.ptr exRespT) 0) 0 42]]
  vals := [ValKind.constV true]
  responseType := .ptr exRespT
  serviceName := "Service"
  methodName := "GetUserExplicit"

/-- The diagnostic `c3Handler` produces. -/
def c3Diag : Diag where
  pos := 42
  message := "potential nil field in gRPC response GetUserResponse.Profile (handler Service.GetUserExplicit)"
  field := classifyField exRespT exProfileField

/-- C3 witness: the theorem applied to the concrete handler that stores an
explicit nil into `Profile`, whose one diagnostic is about a
`MessagePointer` field. -/
theorem c3_safe_never_reported_witness :
    c3Diag ∈ (analyzeHandler [] c3Handler emptyCache).1 ∧
    c3Diag.field.risk ≠ FieldRisk.safe := by
  have hmem : c3Diag ∈ (analyzeHandler [] c3Handler emptyCache).1 := by
    rw [show (analyzeHandler [] c3Handler emptyCache).1 = [c3Diag] from rfl]
    exact List.mem_singleton.mpr rfl
  exact ⟨hmem, (c3_safe_never_reported [] c3Handler emptyCache c3Diag hmem).1⟩

/-! ## C1: implicit-null diagnostics are never emitted

The driver has no code path that emits an `implicit nil field ...`
diagnostic; on the repository's own testdata handler
`subnil.Service.GetUserImplicit` (fresh response, zero stores, returned
as is) it emits nothing at all, although the response has one risky field
and the testdata `want` comment requires exactly one implicit-null
diagnostic. -/

/-- `subnil.UserProfile` from testdata/src/subnil. -/
def subnilProfileT : GoType :=
  GoType.named (some "subnil") "UserProfile" true (.structU [])

/-- `subnil.GetUserResponse` from testdata/src/subnil. -/
def subnilRespT : GoType :=
  GoType.named (some "subnil") "GetUserResponse"  true
    (.structU [GoField.mk "Profile" true (.ptr subnilProfileT)
      [("protobuf", "bytes,1,opt,name=profile,proto3")]])

/-- The SSA body of `subnil.Service.GetUserImplicit`: one fresh allocation
of the response, no store instruction, a return. -/
def getUserImplicitHandler : Handler where
  blocks := [[HInstr.otherInstr, HInstr.otherInstr]]
  vals := [ValKind.allocV, ValKind.constV true]
  responseType := .ptr subnilRespT
  serviceName := "Service"
  methodName := "GetUserImplicit"

/-- C1 (code at the failing input): the response descriptor has exactly one
risky field, yet the driver emits zero diagnostics for the store-free
handler `GetUserImplicit` — in particular zero diagnostics whose message is
the implicit-null shape the claim (and the testdata `want` comment)
requires. -/
theorem c1_implicit_diag_missing :
    (analyzeMessage subnilRespT).map (fun i => i.risky.length) = some 1 ∧
    (analyzeHandler [] getUserImplicitHandler emptyCache).1 = [] ∧
    ((analyzeHandler [] getUserImplicitHandler emptyCache).1.filter
      (fun d => d.message
        = "implicit nil field in gRPC response GetUserResponse.Profile")).length
      = 0 :=
  ⟨rfl, rfl, rfl⟩

/-! ## C10: a body-less callee summarizes to NotNil and is never reported -/

/-- Evaluating a store value that is a call to a result-free callee answers
"not maybe-nil" and caches the `NotNil` summary. -/
theorem isMaybeNil_call_retFree (funcs : List FuncData) (F : FuncData)
    (c : Nat) (vals : List ValKind) (vi : Nat) (fsAcc : Cache)
    (h1 : funcs[c]? = some F) (h2 : retFreeFunc F = true)
    (hv : vals[vi]? = some (ValKind.callV (some c)))
    (hfs : fsAcc c = none ∨ fsAcc c = some notNil) :
    (isMaybeNil funcs vals ⟨emptyCache, fsAcc⟩ vi).1 = false ∧
    (isMaybeNil funcs vals ⟨emptyCache, fsAcc⟩ vi).2.funcSummary c
      = some notNil := by
  have hlt : vi < vals.length := by
    by_contra hge
    rw [List.getElem?_eq_none (Nat.le_of_not_lt hge)] at hv
    exact Option.noConfusion hv
  obtain ⟨m, hm⟩ : ∃ m, vals.length = m + 1 := ⟨vals.length - 1, by omega⟩
  unfold isMaybeNil valueNilStatus
  rw [hm, vnsGo]
  simp only [hv, emptyCache]
  rcases hfs with hfs | hfs
  · have hc : callSummary funcs fsAcc (some c)
        = (notNil, primeCache fsAcc c notNil) := by
      unfold callSummary
      simp only [hfs, h1]
      rw [summarizeBlocks_retFree F h2 notNil]
    rw [show (primeVisited ⟨emptyCache, fsAcc⟩ vi unknown).funcSummary = fsAcc
        from rfl, hc]
    exact ⟨rfl, by simp [primeCache]⟩
  · have hc : callSummary funcs fsAcc (some c) = (notNil, fsAcc) := by
      unfold callSummary
      simp only [hfs]
    rw [show (primeVisited ⟨emptyCache, fsAcc⟩ vi unknown).funcSummary = fsAcc
        from rfl, hc]
    exact ⟨rfl, hfs⟩

/-- The driver accumulator stays diagnostic-free with a `NotNil`-or-absent
summary for `c`, across one step, when every store value is a call to
`c`. -/
theorem scanStore_clean (funcs : List FuncData) (F : FuncData) (c : Nat)
    (h : Handler) (respNamed : GoType) (respName : String) (msgInfo : MsgInfo)
    (h1 : funcs[c]? = some F) (h2 : retFreeFunc F = true) :
    ∀ (acc : List Diag × Cache) (i : HInstr),
      (∀ addr vi pos, i = HInstr.storeInstr addr vi pos →
        h.vals[vi]? = some (ValKind.callV (some c))) →
      acc.1 = [] ∧ (acc.2 c = none ∨ acc.2 c = some notNil) →
      (scanStore funcs h respNamed respName msgInfo acc i).1 = [] ∧
      ((scanStore funcs h respNamed respName msgInfo acc i).2 c = none ∨
        (scanStore funcs h respNamed respName msgInfo acc i).2 c
          = some notNil) := by
  intro acc i hstore hacc
  cases i with
  | otherInstr => exact hacc
  | storeInstr addr valIdx pos =>
    have hval : h.vals[valIdx]? = some (ValKind.callV (some c)) :=
      hstore addr valIdx pos rfl
    have hq := isMaybeNil_call_retFree funcs F c h.vals valIdx acc.2
      h1 h2 hval hacc.2
    cases addr with
    | otherAddr => exact hacc
    | fieldAddr base fieldIndex =>
      simp only [scanStore]
      split
      · split
        · split
          · rw [if_neg (by rw [hq.1]; exact Bool.false_ne_true)]
            exact ⟨hacc.1, Or.inr hq.2⟩
          · exact hacc
        · exact hacc
      · exact hacc
    | indexAddr container =>
      simp only [scanStore]
      split
      · split
        · rw [if_neg (by rw [hq.1]; exact Bool.false_ne_true)]
          exact ⟨hacc.1, Or.inr hq.2⟩
        · exact hacc
      · exact hacc

/-- The clean-accumulator invariant over one block's instructions. -/
theorem foldl_scanInstrs_clean (funcs : List FuncData) (F : FuncData)
    (c : Nat) (h : Handler) (respNamed : GoType) (respName : String)
    (msgInfo : MsgInfo)
    (h1 : funcs[c]? = some F) (h2 : retFreeFunc F = true) :
    ∀ (b : List HInstr) (acc : List Diag × Cache),
      (∀ i ∈ b, ∀ addr vi pos, i = HInstr.storeInstr addr vi pos →
        h.vals[vi]? = some (ValKind.callV (some c))) →
      acc.1 = [] ∧ (acc.2 c = none ∨ acc.2 c = some notNil) →
      (b.foldl (scanStore funcs h respNamed respName msgInfo) acc).1 = [] ∧
      ((b.foldl (scanStore funcs h respNamed respName msgInfo) acc).2 c
          = none ∨
        (b.foldl (scanStore funcs h respNamed respName msgInfo) acc).2 c
          = some notNil) := by
  intro b
  induction b with
  | nil => intro acc _ hacc; exact hacc
  | cons i irest ih =>
    intro acc hb hacc
    rw [List.foldl_cons]
    exact ih _ (fun i' hi' => hb i' (List.mem_cons_of_mem _ hi'))
      (scanStore_clean funcs F c h respNamed respName msgInfo h1 h2
        acc i (hb i (List.mem_cons_self ..)) hacc)

/-- The clean-accumulator invariant over all blocks. -/
theorem foldl_scanBlocks_clean (funcs : List FuncData) (F : FuncData)
    (c : Nat) (h : Handler) (respNamed : GoType) (respName : String)
    (msgInfo : MsgInfo)
    (h1 : funcs[c]? = some F) (h2 : retFreeFunc F = true) :
    ∀ (l : List (List HInstr)) (acc : List Diag × Cache),
      (∀ b ∈ l, ∀ i ∈ b, ∀ addr vi pos,
        i = HInstr.storeInstr addr vi pos →
        h.vals[vi]? = some (ValKind.callV (some c))) →
      acc.1 = [] ∧ (acc.2 c = none ∨ acc.2 c = some notNil) →
      (l.foldl (fun acc b =>
          b.foldl (scanStore funcs h respNamed respName msgInfo) acc)
        acc).1 = [] ∧
      ((l.foldl (fun acc b =>
          b.foldl (scanStore funcs h respNamed respName msgInfo) acc)
        acc).2 c = none ∨
       (l.foldl (fun acc b =>
          b.foldl (scanStore funcs h respNamed respName msgInfo) acc)
        acc).2 c = some notNil) := by
  intro l
  induction l with
  | nil => intro acc _ hacc; exact hacc
  | cons b rest ih =>
    intro acc hl hacc
    rw [List.foldl_cons]
    exact ih _ (fun b' hb' => hl b' (List.mem_cons_of_mem _ hb'))
      (foldl_scanInstrs_clean funcs F c h respNamed respName msgInfo h1 h2
        b acc (hl b (List.mem_cons_self ..)) hacc)

/-- C10: a call whose statically known callee has no result-carrying
return (for example a function with no blocks, such as an external or
body-less one) summarizes to `NotNil`, so stores of its result into risky
response fields are never reported. -/
theorem c10_bodyless_summary_not_reported (funcs : List FuncData)
    (F : FuncData) (c : Nat) (h : Handler) (fs0 : Cache)
    (h1 : funcs[c]? = some F) (h2 : retFreeFunc F = true)
    (h3 : fs0 c = none)
    (hstores : ∀ b ∈ h.blocks, ∀ i ∈ b, ∀ addr vi pos,
      i = HInstr.storeInstr addr vi pos →
      h.vals[vi]? = some (ValKind.callV (some c))) :
    callSummary funcs fs0 (some c) = (notNil, primeCache fs0 c notNil) ∧
    (analyzeHandler funcs h fs0).1 = [] := by
  constructor
  · unfold callSummary
    simp only [h3, h1]
    rw [summarizeBlocks_retFree F h2 notNil]
  · unfold analyzeHandler
    split
    · rename_i p n m u hresp
      split
      · rename_i msgInfo hmsg
        split
        · rfl
        · exact (foldl_scanBlocks_clean funcs F c h (.named p n m u) n msgInfo
            h1 h2 h.blocks ([], fs0) hstores ⟨rfl, Or.inl h3⟩).1
      · rfl
    · rfl

/-- C10 witness callee: no blocks at all (an external function). -/
def c10F : FuncData := ⟨[]⟩

/-- C10 witness handler: stores the result of a call to the body-less
callee into the risky `Profile` field. -/
def c10Handler : Handler where
  blocks := [[HInstr.storeInstr (StoreAddr.fieldAddr (.ptr exRespT) 0) 0 7]]
  vals := [ValKind.callV (some 0)]
  responseType := .ptr exRespT
  serviceName := "Service"
  methodName := "GetUserFromHelper"

/-- C10 witness: the theorem applied to the body-less callee and the
handler that stores its result into `Profile` — summary `NotNil`, no
diagnostics. -/
theorem c10_bodyless_summary_not_reported_witness :
    callSummary [c10F] emptyCache (some 0)
      = (notNil, primeCache emptyCache 0 notNil) ∧
    (analyzeHandler [c10F] c10Handler emptyCache).1 = [] := by
  refine c10_bodyless_summary_not_reported [c10F] c10F 0 c10Handler emptyCache
    rfl rfl rfl ?_
  intro b hb i hi addr vi pos heq
  rcases List.mem_singleton.mp hb with rfl
  rcases List.mem_singleton.mp hi with rfl
  cases heq
  rfl

end GrpcNilLinter
